import Mathlib

/-!
# Verification of the buffered serial audio ingestion and inference loop

Shallow embedding of the host-side Python code in
`02_Arduino_Nano_Inference.ipynb` (functions `arduino_activate`,
`arduino_read`, `normalize`, and the decision part of
`tflite_process_data`) together with the command handler of the
microcontroller sketch (`loop` in the data-streaming `.ino`).

Modelling conventions:
* Machine floats (NumPy float64/float16) are modelled as exact rationals
  (`ℚ`); the `astype(np.float16)` cast at the end of `normalize` is the
  identity in this model.
* The serial line delivers newline-terminated text tokens.  The tokens the
  code ever distinguishes are: the empty token (timeout), a decimal integer
  token, and non-numeric junk; they are modelled by the inductive `Token`.
* `arduino.readline()` is modelled by an infinite stream `ℕ → Token`
  together with a read position that advances by one per read.
* A NumPy array of samples is a `List ℚ`; `np.roll` is `npRoll`;
  element assignment is `List.set`.
* An uncaught Python exception (the `ValueError` raised by
  `int(decoded_data)` on an empty or non-numeric token when normalization
  is enabled) is modelled by `Except.error ()`.
-/

namespace SER

/-- A serial text token as the host code distinguishes them: the empty
token (returned on a read timeout), a decimal integer line, or non-numeric
junk text. -/
inductive Token where
  | empty : Token
  | num : ℤ → Token
  | junk : Token
deriving DecidableEq

/-- Python `int(token)`: succeeds exactly on a decimal integer token,
raises `ValueError` (here: `none`) on the empty token or junk. -/
def intParse : Token → Option ℤ
  | Token.num n => some n
  | _ => none

/-- The NumPy string-to-float conversion performed by assigning a text token
into a float array slot (`buffer[i] = decoded_data` with `norm` disabled):
succeeds on a numeric token, raises `ValueError` (here: `none`) on the
empty token or junk. -/
def floatParse : Token → Option ℚ
  | Token.num n => some (n : ℚ)
  | _ => none

/-- The integer carried by a numeric token (`0` otherwise). -/
def numVal : Token → ℤ
  | Token.num n => n
  | _ => 0

/-- `normalize(array, new_max, new_min, old_max, old_min)` from the
notebook:
`array = (((array - old_min) * (new_max - new_min)) / (old_max - old_min)) + new_min`.
The trailing `astype(np.float16)` is modelled as the identity on exact
rationals. -/
def normalize (array new_max new_min old_max old_min : ℚ) : ℚ :=
  (((array - old_min) * (new_max - new_min)) / (old_max - old_min)) + new_min

/-- `np.roll(l, k)` (NumPy rolls towards larger indices for positive `k`,
i.e. a right rotation): `np.roll(a, k) = a[-k:] ++ a[:-k]`. -/
def npRoll (l : List ℚ) (k : ℕ) : List ℚ :=
  if l.length = 0 then l
  else l.drop (l.length - k % l.length) ++ l.take (l.length - k % l.length)

/-- One execution of the retry `while` loop of `arduino_read`, with `fuel`
remaining permitted attempts.  The body reads a token, increments the
attempt counter and breaks (regardless of the token) once the counter
reaches `max_attempts`; otherwise a non-empty token ends the loop and an
empty one is retried. -/
def retryReadAux (stream : ℕ → Token) : ℕ → ℕ → Token × ℕ
  | 0, pos => (Token.empty, pos)
  | 1, pos => (stream pos, pos + 1)
  | f + 2, pos =>
    if stream pos = Token.empty then retryReadAux stream (f + 1) (pos + 1)
    else (stream pos, pos + 1)

/-- The retry loop of `arduino_read`: starting from read position `pos`,
return the token finally held in `decoded_data` and the new read position.
The loop body runs at least once even for `max_attempts = 0`, mirroring the
Python `while decoded_data == ''` loop whose counter check sits at the end
of the body. -/
def retryRead (stream : ℕ → Token) (max_attempts pos : ℕ) : Token × ℕ :=
  retryReadAux stream (max max_attempts 1) pos

/-- The `for i in range(num_data)` loop of `arduino_read`, filling buffer
slots `i, i+1, …` (the Python loop writes slot `i + overlapping`; here `i`
already starts at `overlapping`).  With `norm` enabled the token is passed
through `int(...)` — whose failure is an uncaught `ValueError`, aborting
the whole call (`Except.error ()`) — and then normalized; with `norm`
disabled the token is assigned directly, a failing conversion being caught
by the `try/except ValueError` and leaving the slot unchanged. -/
def readFill (stream : ℕ → Token) (norm : Option (ℚ × ℚ)) (max_attempts : ℕ) :
    ℕ → ℕ → ℕ → List ℚ → Except Unit (List ℚ)
  | 0, _, _, buf => Except.ok buf
  | k + 1, i, pos, buf =>
    let r := retryRead stream max_attempts pos
    match norm with
    | some (old_max, old_min) =>
      match intParse r.1 with
      | none => Except.error ()
      | some n =>
        readFill stream norm max_attempts k (i + 1) r.2
          (buf.set i (normalize (n : ℚ) 1 (-1) old_max old_min))
    | none =>
      match floatParse r.1 with
      | none => readFill stream norm max_attempts k (i + 1) r.2 buf
      | some q => readFill stream norm max_attempts k (i + 1) r.2 (buf.set i q)

/-- `arduino_read(buffer, buffer_size, overlapping, norm, max_attempts)`:
rolls the buffer by `overlapping` (NumPy right rotation) and then fills
slots `[overlapping, buffer_size)` from the serial stream.  The Python
default for `max_attempts` is `10`; `norm = some (old_max, old_min)`
mirrors the `norm=(TUNING_MAX, TUNING_MIN)` call.  `Except.error ()` is the
uncaught `ValueError` escaping the call. -/
def arduino_read (stream : ℕ → Token) (pos : ℕ) (buffer : List ℚ)
    (buffer_size overlapping : ℕ) (norm : Option (ℚ × ℚ)) (max_attempts : ℕ) :
    Except Unit (List ℚ) :=
  readFill stream norm max_attempts (buffer_size - overlapping) overlapping pos
    (npRoll buffer overlapping)

/-- `BUFFER_SIZE` from the inference cell. -/
def BUFFER_SIZE : ℕ := 24000

/-- `OVERLAPPED` from the inference cell. -/
def OVERLAPPED : ℕ := 512

/-- `TUNING_MAX` as recorded by the calibration cell of the notebook. -/
def TUNING_MAX : ℚ := 839

/-- `TUNING_MIN` as recorded by the calibration cell of the notebook. -/
def TUNING_MIN : ℚ := -553

/-- The buffer-acquisition part of `tflite_process_data`: each round builds
a fresh zero buffer of length `BUFFER_SIZE` and calls
`arduino_read(data, BUFFER_SIZE, OVERLAPPED, norm=(TUNING_MAX, TUNING_MIN))`
with the default `max_attempts = 10`. -/
def tflite_process_window (stream : ℕ → Token) (pos : ℕ) : Except Unit (List ℚ) :=
  arduino_read stream pos (List.replicate BUFFER_SIZE 0) BUFFER_SIZE OVERLAPPED
    (some (TUNING_MAX, TUNING_MIN)) 10

/-- `EMOTIONS` from the inference cell. -/
def EMOTIONS : List String := ["neutral", "happy", "surprise", "unpleasant"]

/-- `COMMANDS` from the inference cell. -/
def COMMANDS : List Char := ['a', 'b', 'c', 'd']

/-- `RECOG_MASK` from the inference cell. -/
def RECOG_MASK : List ℚ := [1, 30000, 40000, 500]

/-- `np.multiply`: element-wise product. -/
def npMultiply (a b : List ℚ) : List ℚ := a.zipWith (· * ·) b

/-- `np.argmax`: index of the first occurrence of the maximum value
(NumPy keeps the first index on ties). -/
def npArgmax : List ℚ → ℕ
  | [] => 0
  | x :: xs =>
    match xs with
    | [] => 0
    | _ :: _ => if x < xs.getD (npArgmax xs) 0 then npArgmax xs + 1 else 0

/-- The decision part of `tflite_process_data`, factored over its two data
inputs as in the specification contract `decide(probabilities, mask, …)`:
`result = np.multiply(prediction, mask)`, then
`emotion = EMOTIONS[np.argmax(result)]`, `command = COMMANDS[np.argmax(result)]`. -/
def decideFn (prediction mask : List ℚ) : String × Char :=
  let result := npMultiply prediction mask
  (EMOTIONS.getD (npArgmax result) "", COMMANDS.getD (npArgmax result) ' ')

/-- The decision of `tflite_process_data` itself, with the fixed
`RECOG_MASK`. -/
def tflite_process_decision (prediction : List ℚ) : String × Char :=
  decideFn prediction RECOG_MASK

/-- Python `command.lower()`: character-wise lowercasing of the string. -/
def strLower (s : String) : String :=
  ⟨s.data.map Char.toLower⟩

/-- UTF-8 encoding of a string, as in `command.encode` with the utf-8
codec, given as a list of byte values. -/
def encodeUtf8 (s : String) : List ℕ :=
  s.data.flatMap fun c => (String.utf8EncodeChar c).map (fun b => b.toNat)

/-- `arduino_activate` after a successful port open: prompts for a command
string, writes its UTF-8 encoding to the serial port iff
`command.lower() == 'x'`, and returns the serial handle unconditionally.
The first component is the bytes written (if any); the second is `true`
because the function always reaches `return arduino`. -/
def arduino_activate (command : String) : Option (List ℕ) × Bool :=
  (if strLower command = "x" then some (encodeUtf8 command) else none, true)

/-- State of the microcontroller sketch observable through its serial
command handler: the record/stream flag and the three RGB LED lines
(`true` = `HIGH`). -/
structure PeerState where
  record : Bool
  ledR : Bool
  ledG : Bool
  ledB : Bool
deriving DecidableEq

/-- The command dispatch in `loop()` of the data-streaming sketch for one
incoming byte: byte 120 (the letter x) toggles `record`; bytes 97 to 100
(the letters a, b, c, d) set the RGB lines; any other byte is ignored. -/
def loopHandleByte (st : PeerState) (b : ℕ) : PeerState :=
  if b = 120 then { st with record := !st.record }
  else if b = 97 then { st with ledR := true, ledG := true, ledB := false }
  else if b = 98 then { st with ledR := true, ledG := false, ledB := true }
  else if b = 99 then { st with ledR := false, ledG := true, ledB := true }
  else if b = 100 then { st with ledR := false, ledG := false, ledB := false }
  else st

/-- The left rotation asserted by the specification in its description of
the refill ("shifts buffer left-rotating by overlap positions"), written
from the words of the spec for comparison with the `np.roll` call made by
the code. -/
def specRotateLeft (l : List ℚ) (k : ℕ) : List ℚ :=
  l.drop k ++ l.take k

/-! ## Helper lemmas -/

theorem getD_set_ne (l : List ℚ) (i j : ℕ) (a d : ℚ) (h : i ≠ j) :
    (l.set i a).getD j d = l.getD j d := by
  simp [List.getD_eq_getElem?_getD, List.getElem?_set_ne h]

theorem getD_set_self (l : List ℚ) (i : ℕ) (a d : ℚ) (h : i < l.length) :
    (l.set i a).getD i d = a := by
  simp [List.getD_eq_getElem?_getD, List.getElem?_set, h]

theorem getD_replicate_zero (n j : ℕ) :
    (List.replicate n (0 : ℚ)).getD j 0 = 0 := by
  simp [List.getD_eq_getElem?_getD, List.getElem?_replicate]
  split <;> simp

theorem length_npRoll (l : List ℚ) (k : ℕ) : (npRoll l k).length = l.length := by
  unfold npRoll
  split
  · rfl
  · simp [List.length_drop, List.length_take]

theorem npRoll_replicate_zero (n k : ℕ) :
    npRoll (List.replicate n (0 : ℚ)) k = List.replicate n 0 := by
  unfold npRoll
  split
  · rfl
  · rw [List.drop_replicate, List.take_replicate, ← List.replicate_add]
    congr 1
    simp only [List.length_replicate] at *
    omega

theorem npRoll_getD_lt (l : List ℚ) (k j : ℕ) (d : ℚ) (hk : k ≤ l.length)
    (hj : j < k) : (npRoll l k).getD j d = l.getD (l.length - k + j) d := by
  have hn : l.length ≠ 0 := by omega
  unfold npRoll
  rw [if_neg hn]
  rcases Nat.lt_or_ge k l.length with hlt | hge
  · have hmod : k % l.length = k := Nat.mod_eq_of_lt hlt
    rw [hmod]
    have hjlen : j < (l.drop (l.length - k)).length := by
      simp [List.length_drop]; omega
    rw [List.getD_eq_getElem?_getD, List.getElem?_append, if_pos hjlen,
      List.getElem?_drop, ← List.getD_eq_getElem?_getD]
  · have hkeq : k = l.length := by omega
    subst hkeq
    rw [Nat.mod_self]
    simp [List.getD_eq_getElem?_getD]

theorem retryRead_nonempty (stream : ℕ → Token) (m pos : ℕ)
    (h : stream pos ≠ Token.empty) :
    retryRead stream m pos = (stream pos, pos + 1) := by
  unfold retryRead
  obtain ⟨f, hf⟩ : ∃ f, max m 1 = f + 1 := ⟨max m 1 - 1, by omega⟩
  rw [hf]
  cases f with
  | zero => rfl
  | succ t => rw [retryReadAux, if_neg h]

theorem retryReadAux_mem (stream : ℕ → Token) :
    ∀ f pos, 1 ≤ f → ∃ p, (retryReadAux stream f pos).1 = stream p
  | 1, pos, _ => ⟨pos, rfl⟩
  | f + 2, pos, _ => by
    rw [retryReadAux]
    split
    · exact retryReadAux_mem stream (f + 1) (pos + 1) (by omega)
    · exact ⟨pos, rfl⟩

theorem retryRead_mem (stream : ℕ → Token) (m pos : ℕ) :
    ∃ p, (retryRead stream m pos).1 = stream p :=
  retryReadAux_mem stream (max m 1) pos (by omega)

theorem retryRead_all_empty (stream : ℕ → Token) (m pos : ℕ)
    (h : ∀ p, stream p = Token.empty) :
    (retryRead stream m pos).1 = Token.empty := by
  obtain ⟨p, hp⟩ := retryRead_mem stream m pos
  rw [hp, h p]

theorem readFill_none_unparseable (stream : ℕ → Token) (m : ℕ)
    (h : ∀ p, floatParse (stream p) = none) :
    ∀ k i pos buf, readFill stream none m k i pos buf = Except.ok buf := by
  intro k
  induction k with
  | zero => intro i pos buf; rfl
  | succ k ih =>
    intro i pos buf
    obtain ⟨p, hp⟩ := retryRead_mem stream m pos
    rw [readFill]
    simp only [hp, h p]
    exact ih (i + 1) (retryRead stream m pos).2 buf

theorem readFill_error_head (stream : ℕ → Token) (M mn : ℚ) (m : ℕ)
    (k i pos : ℕ) (buf : List ℚ) (hk : 0 < k)
    (h : intParse (retryRead stream m pos).1 = none) :
    readFill stream (some (M, mn)) m k i pos buf = Except.error () := by
  cases k with
  | zero => omega
  | succ k =>
    rw [readFill]
    simp only [h]

theorem readFill_allNum (stream : ℕ → Token) (M mn : ℚ) (m : ℕ)
    (h : ∀ p, ∃ n, stream p = Token.num n) :
    ∀ k i pos buf, ∃ b',
      readFill stream (some (M, mn)) m k i pos buf = Except.ok b' ∧
      b'.length = buf.length ∧
      (∀ j d, j < i → b'.getD j d = buf.getD j d) ∧
      (∀ t, t < k → i + t < buf.length →
        b'.getD (i + t) 0 = normalize ((numVal (stream (pos + t)) : ℤ) : ℚ) 1 (-1) M mn) := by
  intro k
  induction k with
  | zero =>
    intro i pos buf
    exact ⟨buf, rfl, rfl, fun j d _ => rfl, fun t ht _ => absurd ht (by omega)⟩
  | succ k ih =>
    intro i pos buf
    obtain ⟨n, hn⟩ := h pos
    have hne : stream pos ≠ Token.empty := by rw [hn]; exact fun hc => Token.noConfusion hc
    have hr : retryRead stream m pos = (stream pos, pos + 1) :=
      retryRead_nonempty stream m pos hne
    obtain ⟨b', hok, hlen, hpre, hfresh⟩ :=
      ih (i + 1) (pos + 1) (buf.set i (normalize ((n : ℤ) : ℚ) 1 (-1) M mn))
    refine ⟨b', ?_, ?_, ?_, ?_⟩
    · rw [readFill]
      simp only [hr, hn, intParse]
      exact hok
    · rw [hlen, List.length_set]
    · intro j d hj
      rw [hpre j d (by omega), getD_set_ne _ _ _ _ _ (by omega)]
    · intro t ht hlt
      cases t with
      | zero =>
        have hi : i < buf.length := by omega
        rw [show i + 0 = i by rfl, hpre i 0 (by omega), getD_set_self _ _ _ _ hi]
        rw [show pos + 0 = pos by rfl, hn]
        rfl
      | succ s =>
        have h1 : i + (s + 1) = (i + 1) + s := by omega
        have h2 : pos + (s + 1) = (pos + 1) + s := by omega
        rw [h1, h2]
        rw [hfresh s (by omega) (by rw [List.length_set]; omega)]

/-- Characterization of a successful `arduino_read` with normalization
enabled on an all-numeric token stream: the call succeeds, preserves the
buffer length, leaves positions `[0, overlapping)` at the values of the
rolled buffer, and stores at each position `j ∈ [overlapping, buffer_size)`
the normalization of the raw sample read for it. -/
theorem arduino_read_spec (stream : ℕ → Token) (M mn : ℚ) (m pos : ℕ)
    (buffer : List ℚ) (size ov : ℕ) (hov : ov ≤ size) (hsz : size = buffer.length)
    (h : ∀ p, ∃ n, stream p = Token.num n) :
    ∃ b', arduino_read stream pos buffer size ov (some (M, mn)) m = Except.ok b' ∧
      b'.length = buffer.length ∧
      (∀ j d, j < ov → b'.getD j d = (npRoll buffer ov).getD j d) ∧
      (∀ j, ov ≤ j → j < size →
        b'.getD j 0 = normalize ((numVal (stream (pos + (j - ov))) : ℤ) : ℚ) 1 (-1) M mn) := by
  obtain ⟨b', hok, hlen, hpre, hfresh⟩ :=
    readFill_allNum stream M mn m h (size - ov) ov pos (npRoll buffer ov)
  refine ⟨b', hok, by rw [hlen, length_npRoll], hpre, ?_⟩
  intro j hj1 hj2
  have hidx : ov + (j - ov) = j := by omega
  have := hfresh (j - ov) (by omega) (by rw [length_npRoll, hidx]; omega)
  rwa [hidx] at this

theorem npArgmax_lt_length : ∀ l : List ℚ, l ≠ [] → npArgmax l < l.length
  | [], h => absurd rfl h
  | [_], _ => Nat.zero_lt_one
  | x :: y :: xs, _ => by
    rw [npArgmax]
    split
    · have := npArgmax_lt_length (y :: xs) (by simp)
      simpa using this
    · simp

theorem npArgmax_getD_le :
    ∀ (l : List ℚ) (j : ℕ), j < l.length → l.getD j 0 ≤ l.getD (npArgmax l) 0
  | [], j, hj => by simp at hj
  | [x], j, hj => by
    cases j with
    | zero => simp [npArgmax]
    | succ s => simp at hj
  | x :: y :: xs, j, hj => by
    rw [npArgmax]
    split
    · rename_i hlt
      rw [List.getD_cons_succ]
      cases j with
      | zero =>
        rw [List.getD_cons_zero]
        exact le_of_lt hlt
      | succ s =>
        rw [List.getD_cons_succ]
        exact npArgmax_getD_le (y :: xs) s (by simpa using hj)
    · rename_i hge
      rw [List.getD_cons_zero]
      cases j with
      | zero => rw [List.getD_cons_zero]
      | succ s =>
        rw [List.getD_cons_succ]
        exact le_trans (npArgmax_getD_le (y :: xs) s (by simpa using hj))
          (le_of_not_lt hge)

theorem npArgmax_first :
    ∀ (l : List ℚ) (j : ℕ), j < npArgmax l → l.getD j 0 < l.getD (npArgmax l) 0
  | [], j, hj => by simp [npArgmax] at hj
  | [_], j, hj => by simp [npArgmax] at hj
  | x :: y :: xs, j, hj => by
    rw [npArgmax] at hj ⊢
    by_cases hlt : x < (y :: xs).getD (npArgmax (y :: xs)) 0
    · rw [if_pos hlt] at hj ⊢
      rw [List.getD_cons_succ]
      cases j with
      | zero => rw [List.getD_cons_zero]; exact hlt
      | succ s =>
        rw [List.getD_cons_succ]
        exact npArgmax_first (y :: xs) s (by omega)
    · rw [if_neg hlt] at hj
      omega

theorem normalize_bounds (M mn x : ℚ) (h : mn < M) (h1 : mn ≤ x) (h2 : x ≤ M) :
    -1 ≤ normalize x 1 (-1) M mn ∧ normalize x 1 (-1) M mn ≤ 1 := by
  have hd : (0 : ℚ) < M - mn := by linarith
  unfold normalize
  constructor
  · have hq : 0 ≤ (x - mn) * (1 - (-1)) / (M - mn) :=
      div_nonneg (by nlinarith) (le_of_lt hd)
    linarith
  · have hq : (x - mn) * (1 - (-1)) / (M - mn) ≤ 2 := by
      rw [div_le_iff₀ hd]
      nlinarith
    linarith

/-! ## Claim theorems -/

/-- C4: for every calibration range with `old_min < old_max`, `normalize`
maps `old_min` exactly to `new_min` and `old_max` exactly to `new_max` (for
every target range), and is monotonic in its input over that range:
order-preserving for every target range with `new_min ≤ new_max`, and
strictly order-preserving for the target range `(new_max, new_min) = (1, -1)`
the program uses. -/
theorem c4_normalize_endpoints_monotone (old_max old_min : ℚ)
    (hlt : old_min < old_max) :
    (∀ new_max new_min : ℚ,
      normalize old_min new_max new_min old_max old_min = new_min ∧
      normalize old_max new_max new_min old_max old_min = new_max) ∧
    (∀ new_max new_min x y : ℚ, new_min ≤ new_max → x ≤ y →
      normalize x new_max new_min old_max old_min ≤
        normalize y new_max new_min old_max old_min) ∧
    (∀ x y : ℚ, x < y →
      normalize x 1 (-1) old_max old_min < normalize y 1 (-1) old_max old_min) := by
  have hd : (0 : ℚ) < old_max - old_min := by linarith
  have hne : old_max - old_min ≠ 0 := ne_of_gt hd
  refine ⟨?_, ?_, ?_⟩
  · intro new_max new_min
    constructor
    · unfold normalize
      rw [sub_self, zero_mul, zero_div, zero_add]
    · unfold normalize
      rw [mul_comm, mul_div_assoc, div_self hne, mul_one]
      ring
  · intro new_max new_min x y hmm hxy
    unfold normalize
    have h1 : (x - old_min) * (new_max - new_min) ≤ (y - old_min) * (new_max - new_min) := by
      nlinarith
    have h2 := div_le_div_of_nonneg_right h1 hd.le
    linarith
  · intro x y hxy
    unfold normalize
    have h1 : (x - old_min) * (1 - (-1)) < (y - old_min) * (1 - (-1)) := by nlinarith
    have h3 : (x - old_min) * (1 - (-1)) / (old_max - old_min) <
        (y - old_min) * (1 - (-1)) / (old_max - old_min) :=
      div_lt_div_of_pos_right h1 hd
    linarith

/-- Witness for C4 at the calibration range recorded by the notebook. -/
theorem c4_normalize_endpoints_monotone_witness :
    (-553 : ℚ) < 839 ∧
    normalize (-553) 1 (-1) 839 (-553) = -1 ∧
    normalize 839 1 (-1) 839 (-553) = 1 ∧
    normalize 0 1 (-1) 839 (-553) < normalize 1 1 (-1) 839 (-553) := by
  have h := c4_normalize_endpoints_monotone 839 (-553) (by norm_num)
  exact ⟨by norm_num, (h.1 1 (-1)).1, (h.1 1 (-1)).2, h.2.2 0 1 (by norm_num)⟩

/-- C5 counterexample: with the calibration range `old_min = -553`,
`old_max = 839` and target range `(-1, 1)`, `normalize` maps the raw value
`0` to `-143/696 ≈ -0.2055`, which differs from the claimed `≈ -0.0459` by
more than `0.15`. -/
theorem c5_zero_map_counterexample :
    normalize 0 1 (-1) 839 (-553) = -143 / 696 ∧
    3 / 20 < |normalize 0 1 (-1) 839 (-553) - (-459 / 10000)| := by
  have h : normalize 0 1 (-1) 839 (-553) = -143 / 696 := by
    unfold normalize
    norm_num
  refine ⟨h, ?_⟩
  rw [h, abs_of_neg (by norm_num)]
  norm_num

/-- C5 amended: with the calibration range `old_min = -553`,
`old_max = 839` and target range `(-1, 1)`, `normalize` maps `839` to
`1.0`, `-553` to `-1.0`, and `0` to `-143/696`, which is approximately
`-0.2055` (within `0.001`). -/
theorem c5_calibration_amended :
    normalize 839 1 (-1) 839 (-553) = 1 ∧
    normalize (-553) 1 (-1) 839 (-553) = -1 ∧
    normalize 0 1 (-1) 839 (-553) = -143 / 696 ∧
    |normalize 0 1 (-1) 839 (-553) - (-2055 / 10000)| < 1 / 1000 := by
  have h : normalize 0 1 (-1) 839 (-553) = -143 / 696 := by
    unfold normalize
    norm_num
  refine ⟨by unfold normalize; norm_num, by unfold normalize; norm_num, h, ?_⟩
  rw [h, abs_of_pos (by norm_num)]
  norm_num

/-- C6: element-wise multiplying the probability vector
`[0.99700433, 0.8471093, 2.38675348, 1.45389081]` by the recognition mask
`[1, 30000, 40000, 500]` yields a weighted vector with arg-max index 2, so
the decision step produces the emotion label "surprise" and the command
character c (whose UTF-8 byte is 99). -/
theorem c6_decision_scenario :
    npArgmax (npMultiply
      [99700433 / 100000000, 8471093 / 10000000, 238675348 / 100000000,
        145389081 / 100000000] RECOG_MASK) = 2 ∧
    tflite_process_decision
      [99700433 / 100000000, 8471093 / 10000000, 238675348 / 100000000,
        145389081 / 100000000] = ("surprise", 'c') ∧
    encodeUtf8 "c" = [99] := by
  refine ⟨?_, ?_, by decide⟩
  · simp [npMultiply, npArgmax, RECOG_MASK]
    norm_num
  · simp [tflite_process_decision, decideFn, npMultiply, npArgmax, RECOG_MASK,
      EMOTIONS, COMMANDS]
    norm_num

/-- C7: the decision step is deterministic — equal `(probabilities, mask)`
inputs give equal `(emotion_label, command_byte)` outputs — the selected
index maximizes the weighted scores, and on ties the lower index wins: any
index whose weighted score equals the winning score is at least the
winning index, under the class ordering
`EMOTIONS = [neutral, happy, surprise, unpleasant]` with
`COMMANDS = [a, b, c, d]`. -/
theorem c7_decide_deterministic_first_argmax :
    (∀ p m p' m' : List ℚ, p = p' → m = m' → decideFn p m = decideFn p' m') ∧
    (∀ (p m : List ℚ) (j : ℕ), j < (npMultiply p m).length →
      (npMultiply p m).getD j 0 ≤ (npMultiply p m).getD (npArgmax (npMultiply p m)) 0) ∧
    (∀ (p m : List ℚ) (j : ℕ),
      (npMultiply p m).getD j 0 = (npMultiply p m).getD (npArgmax (npMultiply p m)) 0 →
      npArgmax (npMultiply p m) ≤ j) ∧
    EMOTIONS = ["neutral", "happy", "surprise", "unpleasant"] ∧
    COMMANDS = ['a', 'b', 'c', 'd'] := by
  refine ⟨?_, ?_, ?_, rfl, rfl⟩
  · intro p m p' m' hp hm
    rw [hp, hm]
  · intro p m j hj
    exact npArgmax_getD_le (npMultiply p m) j hj
  · intro p m j htie
    by_contra hcon
    have hjlt : j < npArgmax (npMultiply p m) := by omega
    have := npArgmax_first (npMultiply p m) j hjlt
    rw [htie] at this
    exact lt_irrefl _ this

/-- Witness for C7: a concrete tie `[2, 2]` (from probabilities `[1, 2]`
and mask `[2, 1]`) is resolved to the lower index 0, and the decision on a
concrete duplicated input is equal to itself. -/
theorem c7_decide_deterministic_first_argmax_witness :
    decideFn [1, 2] [2, 1] = decideFn [1, 2] [2, 1] ∧
    (npMultiply [1, 2] [2, 1]).getD 1 0 ≤
      (npMultiply [1, 2] [2, 1]).getD (npArgmax (npMultiply [1, 2] [2, 1])) 0 ∧
    npArgmax (npMultiply [1, 2] [2, 1]) ≤ 1 := by
  have h := c7_decide_deterministic_first_argmax
  refine ⟨h.1 [1, 2] [2, 1] [1, 2] [2, 1] rfl rfl, ?_, ?_⟩
  · exact h.2.1 [1, 2] [2, 1] 1 (by simp [npMultiply])
  · refine h.2.2.1 [1, 2] [2, 1] 1 ?_
    simp [npMultiply, npArgmax]

/-- C1 counterexample: with calibration normalization enabled, a slot whose
serial reads stay empty for all `max_attempts = 10` attempts does not
leave the slot at its previous value — the `int` conversion of the empty
token raises an uncaught error and the whole read aborts, contradicting the
claim that the round proceeds for every norm argument. -/
theorem c1_norm_abort_counterexample :
    arduino_read (fun _ => Token.empty) 0 [0] 1 0 (some (839, -553)) 10 =
      Except.error () := by
  simp [arduino_read, readFill, retryRead, retryReadAux, npRoll, intParse]

/-- C1 amended: only empty tokens are retried (a non-empty token — numeric
or not — ends the retry loop on its first appearance); with normalization
disabled, a slot whose tokens are all unconvertible is a soft failure that
leaves every slot at its post-roll value and the call succeeds; with
normalization enabled, an empty token surviving the bounded retries makes
the whole read abort with an uncaught conversion error. -/
theorem c1_soft_failure_amended :
    (∀ (stream : ℕ → Token) (m pos : ℕ), stream pos ≠ Token.empty →
      retryRead stream m pos = (stream pos, pos + 1)) ∧
    (∀ (stream : ℕ → Token) (m pos : ℕ) (buffer : List ℚ) (size ov : ℕ),
      (∀ p, floatParse (stream p) = none) →
      arduino_read stream pos buffer size ov none m = Except.ok (npRoll buffer ov)) ∧
    (∀ (stream : ℕ → Token) (M mn : ℚ) (m pos : ℕ) (buffer : List ℚ) (size ov : ℕ),
      ov < size → (∀ p, stream p = Token.empty) →
      arduino_read stream pos buffer size ov (some (M, mn)) m = Except.error ()) := by
  refine ⟨retryRead_nonempty, ?_, ?_⟩
  · intro stream m pos buffer size ov h
    unfold arduino_read
    exact readFill_none_unparseable stream m h (size - ov) ov pos (npRoll buffer ov)
  · intro stream M mn m pos buffer size ov hov h
    unfold arduino_read
    refine readFill_error_head stream M mn m (size - ov) ov pos (npRoll buffer ov)
      (by omega) ?_
    rw [retryRead_all_empty stream m pos h]
    rfl

/-- Witness for C1 amended: a junk token is accepted without retry; an
all-empty stream with normalization disabled leaves the one-slot buffer
untouched; the same stream with normalization enabled aborts. -/
theorem c1_soft_failure_amended_witness :
    retryRead (fun _ => Token.junk) 10 0 = (Token.junk, 1) ∧
    arduino_read (fun _ => Token.empty) 0 [5] 1 0 none 10 =
      Except.ok (npRoll [5] 0) ∧
    arduino_read (fun _ => Token.empty) 0 [5] 1 0 (some (839, -553)) 10 =
      Except.error () := by
  have h := c1_soft_failure_amended
  exact ⟨h.1 (fun _ => Token.junk) 10 0 (by decide),
    h.2.1 (fun _ => Token.empty) 10 0 [5] 1 0 (fun _ => rfl),
    h.2.2 (fun _ => Token.empty) 839 (-553) 10 0 [5] 1 0 (by norm_num) (fun _ => rfl)⟩

/-- C2 counterexample: across two consecutive rounds reading the constant
sample 839, the previous window ends in the normalized value 1, yet the
next window starts with 0 — the buffer is freshly zero-initialized each
round, so no entries are retained from the previous window. -/
theorem c2_retention_counterexample :
    ∃ w₁ w₂ : List ℚ,
      tflite_process_window (fun _ => Token.num 839) 0 = Except.ok w₁ ∧
      tflite_process_window (fun _ => Token.num 839) 23488 = Except.ok w₂ ∧
      w₁.getD (BUFFER_SIZE - OVERLAPPED) 0 = 1 ∧
      w₂.getD 0 0 = 0 ∧
      ¬ (∀ j, j < OVERLAPPED →
          w₂.getD j 0 = w₁.getD (BUFFER_SIZE - OVERLAPPED + j) 0) := by
  obtain ⟨w₁, hok1, hlen1, hpre1, hfresh1⟩ :=
    arduino_read_spec (fun _ => Token.num 839) TUNING_MAX TUNING_MIN 10 0
      (List.replicate BUFFER_SIZE 0) BUFFER_SIZE OVERLAPPED
      (by norm_num [OVERLAPPED, BUFFER_SIZE]) (by simp) (fun _ => ⟨839, rfl⟩)
  obtain ⟨w₂, hok2, hlen2, hpre2, hfresh2⟩ :=
    arduino_read_spec (fun _ => Token.num 839) TUNING_MAX TUNING_MIN 10 23488
      (List.replicate BUFFER_SIZE 0) BUFFER_SIZE OVERLAPPED
      (by norm_num [OVERLAPPED, BUFFER_SIZE]) (by simp) (fun _ => ⟨839, rfl⟩)
  have hv1 : w₁.getD (BUFFER_SIZE - OVERLAPPED) 0 = 1 := by
    rw [hfresh1 (BUFFER_SIZE - OVERLAPPED) (by norm_num [BUFFER_SIZE, OVERLAPPED])
      (by norm_num [BUFFER_SIZE, OVERLAPPED])]
    simp only [numVal]
    norm_num [normalize, TUNING_MAX, TUNING_MIN]
  have hv2 : w₂.getD 0 0 = 0 := by
    rw [hpre2 0 0 (by norm_num [OVERLAPPED]), npRoll_replicate_zero,
      getD_replicate_zero]
  refine ⟨w₁, w₂, hok1, hok2, hv1, hv2, ?_⟩
  intro hall
  have hcon := hall 0 (by norm_num [OVERLAPPED])
  rw [hv2, Nat.add_zero, hv1] at hcon
  norm_num at hcon

/-- C2 amended: each round the window has constant length `BUFFER_SIZE`, but
its first `OVERLAPPED` entries are zeros coming from the fresh
zero-initialized buffer of that round (not retained samples from the
previous round); the remaining `BUFFER_SIZE - OVERLAPPED` entries are
freshly read normalized samples stored at the tail positions. -/
theorem c2_window_amended (stream : ℕ → Token) (pos : ℕ)
    (h : ∀ p, ∃ n, stream p = Token.num n) :
    ∃ w, tflite_process_window stream pos = Except.ok w ∧
      w.length = BUFFER_SIZE ∧
      (∀ j, j < OVERLAPPED → w.getD j 0 = 0) ∧
      (∀ j, OVERLAPPED ≤ j → j < BUFFER_SIZE →
        w.getD j 0 =
          normalize ((numVal (stream (pos + (j - OVERLAPPED))) : ℤ) : ℚ) 1 (-1)
            TUNING_MAX TUNING_MIN) := by
  obtain ⟨w, hok, hlen, hpre, hfresh⟩ :=
    arduino_read_spec stream TUNING_MAX TUNING_MIN 10 pos
      (List.replicate BUFFER_SIZE 0) BUFFER_SIZE OVERLAPPED
      (by norm_num [OVERLAPPED, BUFFER_SIZE]) (by simp) h
  refine ⟨w, hok, by rw [hlen]; simp, ?_, hfresh⟩
  intro j hj
  rw [hpre j 0 hj, npRoll_replicate_zero, getD_replicate_zero]

/-- Witness for C2 amended at the constant stream of raw sample 839. -/
theorem c2_window_amended_witness :
    ∃ w, tflite_process_window (fun _ => Token.num 839) 0 = Except.ok w ∧
      w.length = BUFFER_SIZE ∧
      (∀ j, j < OVERLAPPED → w.getD j 0 = 0) ∧
      (∀ j, OVERLAPPED ≤ j → j < BUFFER_SIZE →
        w.getD j 0 =
          normalize ((numVal ((fun _ => Token.num 839) (0 + (j - OVERLAPPED))) : ℤ) : ℚ)
            1 (-1) TUNING_MAX TUNING_MIN) :=
  c2_window_amended (fun _ => Token.num 839) 0 (fun _ => ⟨839, rfl⟩)

/-- C3 counterexample: the refill rotates the buffer with `np.roll`, a
right rotation, not a left rotation: on the buffer `[1, 2, 3, 4]` with
overlap 1 the retained head entry is 4 (the last element), while the left
rotation claimed by the spec would put 2 there. -/
theorem c3_left_rotate_counterexample :
    arduino_read (fun _ => Token.num 839) 0 [1, 2, 3, 4] 4 1 (some (839, -553)) 10 =
      Except.ok [4, 1, 1, 1] ∧
    specRotateLeft [1, 2, 3, 4] 1 = [2, 3, 4, 1] ∧
    ((4 : ℚ) ≠ 2) := by
  refine ⟨?_, by simp [specRotateLeft], by norm_num⟩
  simp [arduino_read, readFill, retryRead, retryReadAux, npRoll, intParse, normalize]
  norm_num

/-- C3 amended: for every buffer of length `buffer_size` and every
`overlap ≤ buffer_size`, a refill with normalization enabled and numeric
tokens first rotates the buffer RIGHT by `overlap` positions (so the first
`overlap` positions hold the previous last `overlap` entries, never fresh
samples) and then overwrites exactly positions `[overlap, buffer_size)`
with the freshly read samples normalized by the affine map with
`new_max = 1`, `new_min = -1`. -/
theorem c3_refill_amended (stream : ℕ → Token) (M mn : ℚ) (m pos : ℕ)
    (buffer : List ℚ) (size ov : ℕ) (hov : ov ≤ size) (hsz : size = buffer.length)
    (h : ∀ p, ∃ n, stream p = Token.num n) :
    ∃ b', arduino_read stream pos buffer size ov (some (M, mn)) m = Except.ok b' ∧
      b'.length = buffer.length ∧
      (∀ j d, j < ov → b'.getD j d = buffer.getD (buffer.length - ov + j) d) ∧
      (∀ j, ov ≤ j → j < size →
        b'.getD j 0 = normalize ((numVal (stream (pos + (j - ov))) : ℤ) : ℚ) 1 (-1) M mn) := by
  obtain ⟨b', hok, hlen, hpre, hfresh⟩ :=
    arduino_read_spec stream M mn m pos buffer size ov hov hsz h
  refine ⟨b', hok, hlen, ?_, hfresh⟩
  intro j d hj
  rw [hpre j d hj, npRoll_getD_lt buffer ov j d (by omega) hj]

/-- Witness for C3 amended on the buffer `[9, 8, 7, 6]` with overlap 2. -/
theorem c3_refill_amended_witness :
    ∃ b', arduino_read (fun _ => Token.num 5) 0 [9, 8, 7, 6] 4 2 (some (839, -553)) 10 =
        Except.ok b' ∧
      b'.length = ([9, 8, 7, 6] : List ℚ).length ∧
      (∀ j d, j < 2 → b'.getD j d =
        ([9, 8, 7, 6] : List ℚ).getD (([9, 8, 7, 6] : List ℚ).length - 2 + j) d) ∧
      (∀ j, 2 ≤ j → j < 4 → b'.getD j 0 =
        normalize ((numVal ((fun _ => Token.num 5) (0 + (j - 2))) : ℤ) : ℚ) 1 (-1)
          839 (-553)) :=
  c3_refill_amended (fun _ => Token.num 5) 839 (-553) 10 0 [9, 8, 7, 6] 4 2
    (by norm_num) rfl (fun _ => ⟨5, rfl⟩)

/-- C8 counterexample: a raw sample outside the observed calibration range
is stored outside `[-1, 1]`: with range `(-553, 839)` the raw value 2000 is
stored as `619/232 ≈ 2.67 > 1`. -/
theorem c8_range_counterexample :
    arduino_read (fun _ => Token.num 2000) 0 [0] 1 0 (some (839, -553)) 10 =
      Except.ok [619 / 232] ∧ (1 : ℚ) < 619 / 232 := by
  constructor
  · simp [arduino_read, readFill, retryRead, retryReadAux, npRoll, intParse, normalize]
    norm_num
  · norm_num

/-- C8 amended: when every raw sample read during the refill lies within
the calibration range `[old_min, old_max]` (with `old_min < old_max`),
every normalized value stored in the window buffer lies in `[-1, 1]`. -/
theorem c8_bounded_amended (stream : ℕ → Token) (M mn : ℚ) (m pos : ℕ)
    (buffer : List ℚ) (size ov : ℕ) (hlt : mn < M)
    (h : ∀ p, ∃ n, stream p = Token.num n ∧ mn ≤ (n : ℚ) ∧ (n : ℚ) ≤ M)
    (hov : ov ≤ size) (hsz : size = buffer.length) :
    ∃ b', arduino_read stream pos buffer size ov (some (M, mn)) m = Except.ok b' ∧
      ∀ j, ov ≤ j → j < size → -1 ≤ b'.getD j 0 ∧ b'.getD j 0 ≤ 1 := by
  obtain ⟨b', hok, _, _, hfresh⟩ :=
    arduino_read_spec stream M mn m pos buffer size ov hov hsz
      (fun p => (h p).imp fun n hn => hn.1)
  refine ⟨b', hok, ?_⟩
  intro j hj1 hj2
  rw [hfresh j hj1 hj2]
  obtain ⟨n, hn, hnb1, hnb2⟩ := h (pos + (j - ov))
  rw [hn]
  simp only [numVal]
  exact normalize_bounds M mn n hlt hnb1 hnb2

/-- Witness for C8 amended: the in-range raw value 0 with range
`(-553, 839)` gives a stored value inside `[-1, 1]`. -/
theorem c8_bounded_amended_witness :
    ∃ b', arduino_read (fun _ => Token.num 0) 0 [3, 3] 2 1 (some (839, -553)) 10 =
        Except.ok b' ∧
      ∀ j, 1 ≤ j → j < 2 → -1 ≤ b'.getD j 0 ∧ b'.getD j 0 ≤ 1 :=
  c8_bounded_amended (fun _ => Token.num 0) 839 (-553) 10 0 [3, 3] 2 1
    (by norm_num) (fun _ => ⟨0, rfl, by norm_num, by norm_num⟩) (by norm_num) rfl

/-- C10: `arduino_activate` writes exactly the typed string, UTF-8 encoded
in its original case, iff the lowercased string is the single letter x, and
returns the open serial handle regardless of the input; in particular the
input X (uppercase) sends byte 88, which the command handler of the peer
sketch ignores — only byte 120 (lowercase x) toggles record mode. -/
theorem c10_activate_case_sensitive :
    (∀ s : String,
      ((arduino_activate s).1 = some (encodeUtf8 s) ↔ strLower s = "x") ∧
      (arduino_activate s).2 = true) ∧
    (arduino_activate "X").1 = some [88] ∧
    encodeUtf8 "x" = [120] ∧
    (∀ st : PeerState, loopHandleByte st 88 = st) ∧
    (∀ st : PeerState, (loopHandleByte st 120).record = !st.record) := by
  refine ⟨?_, by decide, by decide, ?_, ?_⟩
  · intro s
    refine ⟨⟨?_, ?_⟩, rfl⟩
    · intro hw
      by_contra hc
      simp [arduino_activate, hc] at hw
    · intro hx
      simp [arduino_activate, hx]
  · intro st
    norm_num [loopHandleByte]
  · intro st
    norm_num [loopHandleByte]

/-- Witness for C10 at the concrete input X. -/
theorem c10_activate_case_sensitive_witness :
    (arduino_activate "X").1 = some (encodeUtf8 "X") ∧
    strLower "X" = "x" ∧
    loopHandleByte ⟨false, false, false, false⟩ 88 = ⟨false, false, false, false⟩ := by
  have h := c10_activate_case_sensitive
  exact ⟨(h.1 "X").1.mpr (by decide), by decide,
    h.2.2.2.1 ⟨false, false, false, false⟩⟩

end SER
